import Mathlib

/-!
# Verification of the trickster named-lock registry (`pkg/locks/locks.go`)

This file gives a shallow embedding of the Go package `locks` and proves the
specified properties of it.

The Go code manages a `map[string]*namedLock` guarded by a `mapLock` mutex.
Each `namedLock` embeds a `*sync.RWMutex` and carries the fields
`name : string`, `queueSize : int32` (the reference count), `writeLockMode :
int32` (the pending-write flag, 0 or 1) and `writeLockCount : int` (the
diagnostic write-acquisition counter).

The embedding has three layers:

* an **atomic registry model** (`namedLocker` with operations `Acquire`,
  `RAcquire`, `Release`, `RRelease`, `Upgrade`), in which each exported
  operation is one state transformer.  Pointers `*namedLock` are modelled by
  a heap `Nat → namedLock` addressed by ids; the Go map is an association
  list from names to ids.  Blocking acquisition of the embedded `RWMutex`
  has no effect on these fields, so it does not appear at this layer;
* a **per-entry micro-step machine** (`entryState`, `MStep`), in which the
  individual atomic instructions of the operation bodies (the
  `atomic.AddInt32` / `atomic.StoreInt32` calls and the `RWMutex`
  acquire/release transitions) interleave freely, used for the
  reader/writer-exclusion and pending-write-visibility claims;
* **action traces** (`acquireTrace`, `releaseTrace`, `rReleaseTrace`),
  recording the program order of the instructions of `Acquire`, `Release`
  and `RRelease` as they appear in the source, used for the ordering claims
  about what happens under the registry's `mapLock`.
-/

/-- `errInvalidLockName` embeds `fmt.Errorf("invalid lock name: %s", name)`
from locks.go. -/
def errInvalidLockName (name : String) : String :=
  "invalid lock name: " ++ name

/-- The fields of the Go struct `namedLock` (locks.go lines 60-67) other
than the embedded `*sync.RWMutex` and the back pointer `locker`: the name,
the reference count `queueSize`, the pending-write flag `writeLockMode`
(an `int32` holding 0 or 1) and the write-acquisition counter
`writeLockCount`. -/
structure namedLock where
  name : String
  queueSize : Int
  writeLockMode : Int
  writeLockCount : Int
deriving Repr, DecidableEq

/-- `newNamedLock` (locks.go lines 52-58): a fresh entry has the given name
and Go zero values for `queueSize`, `writeLockMode` and `writeLockCount`. -/
def newNamedLock (name : String) : namedLock :=
  { name := name, queueSize := 0, writeLockMode := 0, writeLockCount := 0 }

/-- Association-list lookup, modelling Go map indexing `m[k]`. -/
def mapLookup {α β : Type} [DecidableEq α] : List (α × β) → α → Option β
  | [], _ => none
  | (k, v) :: t, k₀ => if k = k₀ then some v else mapLookup t k₀

/-- Removal of a key, modelling Go `delete(m, k)`. -/
def mapErase {α β : Type} [DecidableEq α] : List (α × β) → α → List (α × β)
  | [], _ => []
  | (k, v) :: t, k₀ => if k = k₀ then mapErase t k₀ else (k, v) :: mapErase t k₀

/-- Insertion/replacement of a binding, modelling Go `m[k] = v`. -/
def mapInsert {α β : Type} [DecidableEq α] (l : List (α × β)) (k : α) (v : β) :
    List (α × β) :=
  (k, v) :: mapErase l k

/-- Update of one heap cell, modelling a store through a `*namedLock`
pointer. -/
def hupdate (h : Nat → namedLock) (id : Nat) (nl : namedLock) :
    Nat → namedLock :=
  fun n => if n = id then nl else h n

/-- The Go struct `namedLocker` (locks.go lines 30-33): the registry map
`locks` (an association list from names to entry ids) together with a heap
giving each id its `namedLock` state, and the next unallocated id.  The
`mapLock` mutex does not appear at this layer because each operation of the
atomic model is a single transformer; its program-order position is covered
by the trace layer. -/
structure namedLocker where
  locks : List (String × Nat)
  heap : Nat → namedLock
  nextId : Nat

/-- `NewNamedLocker` (locks.go lines 36-41): an empty registry.  Unallocated
heap cells are given the (never stored) empty-name entry. -/
def NewNamedLocker : namedLocker :=
  { locks := [], heap := fun _ => newNamedLock "", nextId := 0 }

/-- `namedLocker.Acquire` (locks.go lines 149-168) as one atomic
transformer.  An empty name is rejected with `errInvalidLockName`.
Otherwise the name is looked up; if absent a fresh entry is created and
inserted; then the entry's `queueSize` is incremented, `writeLockMode` is
stored as 1, the exclusive lock is acquired (no field effect) and
`writeLockCount` is incremented; the handle (the entry's id) is returned. -/
def Acquire (lk : namedLocker) (lockName : String) :
    Except String (namedLocker × Nat) :=
  if lockName = "" then .error (errInvalidLockName lockName) else
  let p : namedLocker × Nat :=
    match mapLookup lk.locks lockName with
    | some id => (lk, id)
    | none =>
      ({ locks := mapInsert lk.locks lockName lk.nextId,
         heap := hupdate lk.heap lk.nextId (newNamedLock lockName),
         nextId := lk.nextId + 1 }, lk.nextId)
  let nl := p.1.heap p.2
  let nl₁ := { nl with queueSize := nl.queueSize + 1,
                       writeLockMode := 1,
                       writeLockCount := nl.writeLockCount + 1 }
  .ok ({ p.1 with heap := hupdate p.1.heap p.2 nl₁ }, p.2)

/-- `namedLocker.RAcquire` (locks.go lines 171-189) as one atomic
transformer: as `Acquire`, but `writeLockMode` is stored as 0, the shared
lock is acquired instead, and `writeLockCount` is not touched. -/
def RAcquire (lk : namedLocker) (lockName : String) :
    Except String (namedLocker × Nat) :=
  if lockName = "" then .error (errInvalidLockName lockName) else
  let p : namedLocker × Nat :=
    match mapLookup lk.locks lockName with
    | some id => (lk, id)
    | none =>
      ({ locks := mapInsert lk.locks lockName lk.nextId,
         heap := hupdate lk.heap lk.nextId (newNamedLock lockName),
         nextId := lk.nextId + 1 }, lk.nextId)
  let nl := p.1.heap p.2
  let nl₁ := { nl with queueSize := nl.queueSize + 1,
                       writeLockMode := 0 }
  .ok ({ p.1 with heap := hupdate p.1.heap p.2 nl₁ }, p.2)

/-- `namedLock.Release` (locks.go lines 70-86) as one atomic transformer on
the registry state, acting through the handle `id`: reject an empty name;
otherwise store `writeLockMode := 0`, decrement `queueSize`, and exactly
when the decremented value is 0 delete the entry's name from the registry
map; finally release the exclusive lock (no field effect) and return
success. -/
def Release (lk : namedLocker) (id : Nat) : Except String namedLocker :=
  let nl := lk.heap id
  if nl.name = "" then .error (errInvalidLockName nl.name) else
  let nl₁ := { nl with writeLockMode := 0, queueSize := nl.queueSize - 1 }
  let lk₁ := { lk with heap := hupdate lk.heap id nl₁ }
  .ok (if nl₁.queueSize = 0 then
        { lk₁ with locks := mapErase lk₁.locks nl.name }
      else lk₁)

/-- `namedLock.RRelease` (locks.go lines 89-104) as one atomic transformer:
as `Release` but `writeLockMode` is not touched and the shared lock is the
one released. -/
def RRelease (lk : namedLocker) (id : Nat) : Except String namedLocker :=
  let nl := lk.heap id
  if nl.name = "" then .error (errInvalidLockName nl.name) else
  let nl₁ := { nl with queueSize := nl.queueSize - 1 }
  let lk₁ := { lk with heap := hupdate lk.heap id nl₁ }
  .ok (if nl₁.queueSize = 0 then
        { lk₁ with locks := mapErase lk₁.locks nl.name }
      else lk₁)

/-- `namedLock.Upgrade` (locks.go lines 123-146) as one atomic transformer.
The spawned goroutine first increments `queueSize` and signals over the
channel; only then does the caller run `nl.RRelease()` (whose error the
source discards); the goroutine then stores `writeLockMode := 1`, acquires
the exclusive lock and increments `writeLockCount`; the function returns
the same entry with a nil error. -/
def Upgrade (lk : namedLocker) (id : Nat) : Except String (namedLocker × Nat) :=
  let nl₀ := lk.heap id
  let lk₁ := { lk with heap := hupdate lk.heap id
                                 ({ nl₀ with queueSize := nl₀.queueSize + 1 }) }
  let lk₂ := match RRelease lk₁ id with
    | .ok l => l
    | .error _ => lk₁
  let nl₂ := lk₂.heap id
  let nl₃ := { nl₂ with writeLockMode := 1,
                        writeLockCount := nl₂.writeLockCount + 1 }
  .ok ({ lk₂ with heap := hupdate lk₂.heap id nl₃ }, id)

/-- `namedLock.WriteLockCounter` (locks.go lines 107-111). -/
def WriteLockCounter (lk : namedLocker) (id : Nat) : Int :=
  (lk.heap id).writeLockCount

/-- `namedLock.WriteLockMode` (locks.go lines 114-116): true exactly when
the atomic load of `writeLockMode` yields 1. -/
def WriteLockMode (lk : namedLocker) (id : Nat) : Bool :=
  (lk.heap id).writeLockMode == 1

/-- The individual atomic instructions appearing in the bodies of
`Acquire`, `RAcquire`, `Release` and `RRelease` in locks.go, used to record
their program order. -/
inductive LockAction where
  | mapLockAcquire
  | mapLookupName
  | newEntryInsert
  | incQueueSize
  | decQueueSize
  | mapLockRelease
  | mapDeleteName
  | storeWriteLockMode (v : Int)
  | lockExclusive
  | unlockExclusive
  | rlockShared
  | runlockShared
  | incWriteLockCount
deriving DecidableEq, Repr

/-- Index of the first occurrence of `a` in `t` (length of `t` if absent). -/
def idxOf {α : Type} [DecidableEq α] (a : α) : List α → Nat
  | [] => 0
  | b :: t => if a = b then 0 else idxOf a t + 1

/-- `a` and `b` both occur in the trace `t` and the first occurrence of `a`
is strictly earlier than the first occurrence of `b`. -/
abbrev occursBefore {α : Type} [DecidableEq α] (a b : α) (t : List α) : Prop :=
  a ∈ t ∧ b ∈ t ∧ idxOf a t < idxOf b t

/-- The program-order trace of `namedLocker.Acquire` (locks.go lines
149-168) on a non-empty name: take `mapLock`, look the name up, insert a
fresh entry when the lookup misses, `atomic.AddInt32(&nl.queueSize, 1)`,
release `mapLock`, `atomic.StoreInt32(&nl.writeLockMode, 1)`, `nl.Lock()`,
`nl.writeLockCount++`.  `present` tells whether the lookup hit. -/
def acquireTrace (present : Bool) : List LockAction :=
  [.mapLockAcquire, .mapLookupName]
    ++ (if present then [] else [.newEntryInsert])
    ++ [.incQueueSize, .mapLockRelease, .storeWriteLockMode 1,
        .lockExclusive, .incWriteLockCount]

/-- The program-order trace of `namedLocker.RAcquire` (locks.go lines
171-189) on a non-empty name: as `acquireTrace` but storing 0 into
`writeLockMode` and ending in `nl.RLock()`. -/
def rAcquireTrace (present : Bool) : List LockAction :=
  [.mapLockAcquire, .mapLookupName]
    ++ (if present then [] else [.newEntryInsert])
    ++ [.incQueueSize, .mapLockRelease, .storeWriteLockMode 0, .rlockShared]

/-- The program-order trace of `namedLock.Release` (locks.go lines 70-86)
on a non-empty name: `atomic.StoreInt32(&nl.writeLockMode, 0)`,
`atomic.AddInt32(&nl.queueSize, -1)`, and — exactly when the decremented
value was 0 (`lastRef`) — take `mapLock`, delete the name, release
`mapLock`; finally `nl.Unlock()`. -/
def releaseTrace (lastRef : Bool) : List LockAction :=
  [.storeWriteLockMode 0, .decQueueSize]
    ++ (if lastRef then [.mapLockAcquire, .mapDeleteName, .mapLockRelease]
        else [])
    ++ [.unlockExclusive]

/-- The program-order trace of `namedLock.RRelease` (locks.go lines 89-104)
on a non-empty name: as `releaseTrace` but with no `writeLockMode` store
and ending in `nl.RUnlock()`. -/
def rReleaseTrace (lastRef : Bool) : List LockAction :=
  [.decQueueSize]
    ++ (if lastRef then [.mapLockAcquire, .mapDeleteName, .mapLockRelease]
        else [])
    ++ [.runlockShared]

/-- The state of one `namedLock` entry at the micro-step level: its counter
fields together with the state of its embedded `sync.RWMutex`, given by the
number of current shared holders (`readers`) and exclusive holders
(`writers`). -/
structure entryState where
  queueSize : Int
  writeLockMode : Int
  writeLockCount : Int
  readers : Nat
  writers : Nat
deriving DecidableEq, Repr

/-- A just-constructed entry (`newNamedLock`): all counters zero and the
`RWMutex` free. -/
def entryInit : entryState :=
  { queueSize := 0, writeLockMode := 0, writeLockCount := 0,
    readers := 0, writers := 0 }

/-- The atomic micro-instructions that the bodies of `Acquire`, `RAcquire`,
`Release`, `RRelease` and `Upgrade` perform on one entry:
`atomic.AddInt32` on `queueSize`, `atomic.StoreInt32` on `writeLockMode`,
the (write-lock-holder-only) `writeLockCount++`, and the four
`sync.RWMutex` transitions.  `Lock` is grantable only when the mutex has no
holder at all; `RLock` only when there is no exclusive holder. -/
inductive MStep where
  | incQ
  | decQ
  | storeWlm (v : Int)
  | incWlc
  | rlock
  | runlock
  | lock
  | unlock
deriving DecidableEq, Repr

/-- Effect of one micro-instruction on an entry; `none` when the
instruction is a mutex acquisition whose guard does not hold (the caller
stays blocked). -/
def MStep.apply : MStep → entryState → Option entryState
  | .incQ, e => some { e with queueSize := e.queueSize + 1 }
  | .decQ, e => some { e with queueSize := e.queueSize - 1 }
  | .storeWlm v, e => some { e with writeLockMode := v }
  | .incWlc, e => some { e with writeLockCount := e.writeLockCount + 1 }
  | .rlock, e =>
      if e.writers = 0 then some { e with readers := e.readers + 1 } else none
  | .runlock, e =>
      if 0 < e.readers then some { e with readers := e.readers - 1 } else none
  | .lock, e =>
      if e.writers = 0 ∧ e.readers = 0 then
        some { e with writers := e.writers + 1 }
      else none
  | .unlock, e =>
      if 0 < e.writers then some { e with writers := e.writers - 1 } else none

/-- Run a concrete sequence of micro-instructions. -/
def runSteps : List MStep → entryState → Option entryState
  | [], e => some e
  | a :: t, e =>
    match a.apply e with
    | some e₁ => runSteps t e₁
    | none => none

/-- Entry states reachable from a fresh entry by any interleaving of the
micro-instructions of the lock operations. -/
inductive EntryReachable : entryState → Prop
  | init : EntryReachable entryInit
  | step {e e₁ : entryState} (a : MStep) :
      EntryReachable e → a.apply e = some e₁ → EntryReachable e₁

/-- The per-entry micro-instructions of `RAcquire` (locks.go lines
178-188), after the `mapLock` section: increment `queueSize`, store 0 into
`writeLockMode`, `nl.RLock()`. -/
def rAcquireEntrySteps : List MStep :=
  [.incQ, .storeWlm 0, .rlock]

/-- The per-entry micro-instructions of `Acquire` (locks.go lines 156-163)
up to but not including the blocking `nl.Lock()`: increment `queueSize`,
store 1 into `writeLockMode`. -/
def acquirePendingSteps : List MStep :=
  [.incQ, .storeWlm 1]

/-- The atomic load performed by `namedLock.WriteLockMode` on an entry
state. -/
def entryWriteLockMode (e : entryState) : Bool :=
  e.writeLockMode == 1

/-- State of the two tasks of `namedLock.Upgrade` (locks.go lines 123-146)
acting on one entry: the entry itself, whether the entry's name is still
bound in the registry map (`inMap`), whether the one-shot channel `ch` has
been sent on, and the program counters of the spawned goroutine (`gpc`) and
of the initiating caller (`cpc`).

Goroutine program: 0 `atomic.AddInt32(&nl.queueSize, 1)`; 1 `ch <- true`;
2 `atomic.StoreInt32(&nl.writeLockMode, 1)`; 3 `nl.Lock()`;
4 `nl.writeLockCount++` (then `wg.Done()`); 5 done.

Caller program: 0 `<-ch`; then `nl.RRelease()` as its micro-steps:
1 decrement `queueSize` remembering the decremented value (`obs`);
2 if the remembered value is 0, delete the entry from the registry map;
3 `nl.RUnlock()`; 4 `wg.Wait()`; 5 done. -/
structure UpgState where
  ent : entryState
  inMap : Bool
  chSent : Bool
  obs : Int
  gpc : Nat
  cpc : Nat
deriving DecidableEq, Repr

/-- One interleaved micro-step of the two tasks of `Upgrade`.  Channel
receive is enabled only after the send; `wg.Wait()` only after the
goroutine finished; mutex steps are guarded as in `MStep.apply`. -/
inductive UpgStep : UpgState → UpgState → Prop
  | g_incQ (s : UpgState) : s.gpc = 0 →
      UpgStep s { s with
        ent := { s.ent with queueSize := s.ent.queueSize + 1 }, gpc := 1 }
  | g_send (s : UpgState) : s.gpc = 1 →
      UpgStep s { s with chSent := true, gpc := 2 }
  | g_storeWlm (s : UpgState) : s.gpc = 2 →
      UpgStep s { s with
        ent := { s.ent with writeLockMode := 1 }, gpc := 3 }
  | g_lock (s : UpgState) : s.gpc = 3 →
      s.ent.writers = 0 → s.ent.readers = 0 →
      UpgStep s { s with
        ent := { s.ent with writers := s.ent.writers + 1 }, gpc := 4 }
  | g_incWlc (s : UpgState) : s.gpc = 4 →
      UpgStep s { s with
        ent := { s.ent with writeLockCount := s.ent.writeLockCount + 1 },
        gpc := 5 }
  | c_recv (s : UpgState) : s.cpc = 0 → s.chSent = true →
      UpgStep s { s with cpc := 1 }
  | c_decQ (s : UpgState) : s.cpc = 1 →
      UpgStep s { s with
        ent := { s.ent with queueSize := s.ent.queueSize - 1 },
        obs := s.ent.queueSize - 1, cpc := 2 }
  | c_mapCheck (s : UpgState) : s.cpc = 2 →
      UpgStep s { s with
        inMap := if s.obs = 0 then false else s.inMap, cpc := 3 }
  | c_runlock (s : UpgState) : s.cpc = 3 → 0 < s.ent.readers →
      UpgStep s { s with
        ent := { s.ent with readers := s.ent.readers - 1 }, cpc := 4 }
  | c_wait (s : UpgState) : s.cpc = 4 → s.gpc = 5 →
      UpgStep s { s with cpc := 5 }

/-- The initial state of an `Upgrade` call: both tasks at their first
instruction, channel not yet sent on, the entry still in the registry
map. -/
def UpgInit (s : UpgState) : Prop :=
  s.gpc = 0 ∧ s.cpc = 0 ∧ s.chSent = false ∧ s.inMap = true

/-- Inductive invariant of the `Upgrade` machine started on an entry whose
reference count was `n`: the channel flag tracks the goroutine's progress,
the caller passes the receive only after the send, `queueSize` is `n + 1`
between the goroutine's increment and the caller's decrement and `n`
otherwise, the remembered decrement result is `n`, and the entry stays in
the registry map. -/
def UpgInv (n : Int) (s : UpgState) : Prop :=
  (s.chSent = true ↔ 2 ≤ s.gpc) ∧
  (1 ≤ s.cpc → s.chSent = true) ∧
  (2 ≤ s.cpc → s.ent.queueSize = n) ∧
  (s.cpc ≤ 1 → 1 ≤ s.gpc → s.ent.queueSize = n + 1) ∧
  (s.gpc = 0 → s.ent.queueSize = n) ∧
  (s.cpc = 2 → s.obs = n) ∧
  s.inMap = true

/-- The invariant of the atomic registry model, claim C5's statement of
registry/reference-count consistency: every name bound in the map points at
an entry carrying that name with a positive reference count; every entry
with a positive reference count is bound in the map under its name; bound
ids are allocated (below `nextId`); unallocated ids have no references. -/
def RegInv (lk : namedLocker) : Prop :=
  (∀ name id, mapLookup lk.locks name = some id →
      (lk.heap id).name = name ∧ 0 < (lk.heap id).queueSize) ∧
  (∀ id, 0 < (lk.heap id).queueSize →
      mapLookup lk.locks (lk.heap id).name = some id) ∧
  (∀ name id, mapLookup lk.locks name = some id → id < lk.nextId) ∧
  (∀ id, lk.nextId ≤ id → (lk.heap id).queueSize ≤ 0)

/-- A concrete held entry used to instantiate theorems: name `"k"`, one
outstanding exclusive reference. -/
def exLock : namedLock :=
  { name := "k", queueSize := 1, writeLockMode := 1, writeLockCount := 1 }

/-- A concrete registry holding `exLock` under id 0. -/
def exLocker : namedLocker :=
  { locks := [("k", 0)], heap := fun _ => exLock, nextId := 1 }

/-- A concrete held entry with two outstanding references. -/
def exLock2 : namedLock :=
  { name := "k", queueSize := 2, writeLockMode := 0, writeLockCount := 3 }

/-- A concrete registry holding `exLock2` under id 0. -/
def exLocker2 : namedLocker :=
  { locks := [("k", 0)], heap := fun _ => exLock2, nextId := 1 }

/-- A concrete initial state for the `Upgrade` machine: the caller holds
one shared reference (`queueSize = 1`, one reader), the entry is in the
registry map, nothing has run yet. -/
def upgExample : UpgState :=
  { ent := { queueSize := 1, writeLockMode := 0, writeLockCount := 0,
             readers := 1, writers := 0 },
    inMap := true, chSent := false, obs := 0, gpc := 0, cpc := 0 }

theorem hupdate_self (h : Nat → namedLock) (id : Nat) (nl : namedLock) :
    hupdate h id nl id = nl := by
  simp [hupdate]

theorem hupdate_ne (h : Nat → namedLock) {id n : Nat} (nl : namedLock)
    (hne : n ≠ id) : hupdate h id nl n = h n := by
  simp [hupdate, hne]

theorem mapLookup_mapErase_self {α β : Type} [DecidableEq α]
    (l : List (α × β)) (k : α) : mapLookup (mapErase l k) k = none := by
  induction l with
  | nil => rfl
  | cons p t ih =>
    obtain ⟨a, b⟩ := p
    by_cases hak : a = k
    · simpa [mapErase, hak] using ih
    · simp [mapErase, mapLookup, hak, ih]

theorem mapLookup_mapErase_ne {α β : Type} [DecidableEq α]
    (l : List (α × β)) {k k₀ : α} (hne : k₀ ≠ k) :
    mapLookup (mapErase l k) k₀ = mapLookup l k₀ := by
  induction l with
  | nil => rfl
  | cons p t ih =>
    obtain ⟨a, b⟩ := p
    by_cases hak : a = k
    · subst hak
      simp [mapErase, mapLookup, Ne.symm hne, ih]
    · by_cases hak₀ : a = k₀ <;> simp [mapErase, mapLookup, hak, hak₀, hne, ih]

theorem mapLookup_mapInsert_self {α β : Type} [DecidableEq α]
    (l : List (α × β)) (k : α) (v : β) :
    mapLookup (mapInsert l k v) k = some v := by
  simp [mapInsert, mapLookup]

theorem mapLookup_mapInsert_ne {α β : Type} [DecidableEq α]
    (l : List (α × β)) {k k₀ : α} (v : β) (hne : k₀ ≠ k) :
    mapLookup (mapInsert l k v) k₀ = mapLookup l k₀ := by
  simp [mapInsert, mapLookup, Ne.symm hne, mapLookup_mapErase_ne l hne]

theorem Acquire_empty (lk : namedLocker) :
    Acquire lk "" = .error (errInvalidLockName "") := by
  simp [Acquire]

theorem RAcquire_empty (lk : namedLocker) :
    RAcquire lk "" = .error (errInvalidLockName "") := by
  simp [RAcquire]


theorem Acquire_existing (lk : namedLocker) {name : String} {id : Nat}
    (hne : name ≠ "") (hl : mapLookup lk.locks name = some id) :
    ∃ lk₁, Acquire lk name = .ok (lk₁, id) ∧
      lk₁.locks = lk.locks ∧ lk₁.nextId = lk.nextId ∧
      (lk₁.heap id).name = (lk.heap id).name ∧
      (lk₁.heap id).queueSize = (lk.heap id).queueSize + 1 ∧
      (lk₁.heap id).writeLockMode = 1 ∧
      (lk₁.heap id).writeLockCount = (lk.heap id).writeLockCount + 1 ∧
      (∀ j, j ≠ id → lk₁.heap j = lk.heap j) := by
  simp only [Acquire, if_neg hne, hl]
  refine ⟨_, rfl, rfl, rfl, ?_, ?_, ?_, ?_, ?_⟩
  · simp [hupdate_self]
  · simp [hupdate_self]
  · simp [hupdate_self]
  · simp [hupdate_self]
  · intro j hj
    simp [hupdate_ne _ _ hj]

theorem Acquire_fresh (lk : namedLocker) {name : String}
    (hne : name ≠ "") (hl : mapLookup lk.locks name = none) :
    ∃ lk₁, Acquire lk name = .ok (lk₁, lk.nextId) ∧
      lk₁.locks = mapInsert lk.locks name lk.nextId ∧
      lk₁.nextId = lk.nextId + 1 ∧
      (lk₁.heap lk.nextId).name = name ∧
      (lk₁.heap lk.nextId).queueSize = 1 ∧
      (lk₁.heap lk.nextId).writeLockMode = 1 ∧
      (lk₁.heap lk.nextId).writeLockCount = 1 ∧
      (∀ j, j ≠ lk.nextId → lk₁.heap j = lk.heap j) := by
  simp only [Acquire, if_neg hne, hl]
  refine ⟨_, rfl, rfl, rfl, ?_, ?_, ?_, ?_, ?_⟩
  · simp [hupdate_self, newNamedLock]
  · simp [hupdate_self, newNamedLock]
  · simp [hupdate_self, newNamedLock]
  · simp [hupdate_self, newNamedLock]
  · intro j hj
    simp [hupdate_ne _ _ hj]

theorem RAcquire_existing (lk : namedLocker) {name : String} {id : Nat}
    (hne : name ≠ "") (hl : mapLookup lk.locks name = some id) :
    ∃ lk₁, RAcquire lk name = .ok (lk₁, id) ∧
      lk₁.locks = lk.locks ∧ lk₁.nextId = lk.nextId ∧
      (lk₁.heap id).name = (lk.heap id).name ∧
      (lk₁.heap id).queueSize = (lk.heap id).queueSize + 1 ∧
      (lk₁.heap id).writeLockMode = 0 ∧
      (lk₁.heap id).writeLockCount = (lk.heap id).writeLockCount ∧
      (∀ j, j ≠ id → lk₁.heap j = lk.heap j) := by
  simp only [RAcquire, if_neg hne, hl]
  refine ⟨_, rfl, rfl, rfl, ?_, ?_, ?_, ?_, ?_⟩
  · simp [hupdate_self]
  · simp [hupdate_self]
  · simp [hupdate_self]
  · simp [hupdate_self]
  · intro j hj
    simp [hupdate_ne _ _ hj]

theorem RAcquire_fresh (lk : namedLocker) {name : String}
    (hne : name ≠ "") (hl : mapLookup lk.locks name = none) :
    ∃ lk₁, RAcquire lk name = .ok (lk₁, lk.nextId) ∧
      lk₁.locks = mapInsert lk.locks name lk.nextId ∧
      lk₁.nextId = lk.nextId + 1 ∧
      (lk₁.heap lk.nextId).name = name ∧
      (lk₁.heap lk.nextId).queueSize = 1 ∧
      (lk₁.heap lk.nextId).writeLockMode = 0 ∧
      (lk₁.heap lk.nextId).writeLockCount = 0 ∧
      (∀ j, j ≠ lk.nextId → lk₁.heap j = lk.heap j) := by
  simp only [RAcquire, if_neg hne, hl]
  refine ⟨_, rfl, rfl, rfl, ?_, ?_, ?_, ?_, ?_⟩
  · simp [hupdate_self, newNamedLock]
  · simp [hupdate_self, newNamedLock]
  · simp [hupdate_self, newNamedLock]
  · simp [hupdate_self, newNamedLock]
  · intro j hj
    simp [hupdate_ne _ _ hj]

theorem Release_err (lk : namedLocker) {id : Nat}
    (he : (lk.heap id).name = "") :
    Release lk id = .error (errInvalidLockName "") := by
  simp [Release, he]

theorem RRelease_err (lk : namedLocker) {id : Nat}
    (he : (lk.heap id).name = "") :
    RRelease lk id = .error (errInvalidLockName "") := by
  simp [RRelease, he]

theorem Release_spec (lk : namedLocker) (id : Nat)
    (hne : (lk.heap id).name ≠ "") :
    ∃ lk₁, Release lk id = .ok lk₁ ∧
      (lk₁.heap id).name = (lk.heap id).name ∧
      (lk₁.heap id).queueSize = (lk.heap id).queueSize - 1 ∧
      (lk₁.heap id).writeLockMode = 0 ∧
      (lk₁.heap id).writeLockCount = (lk.heap id).writeLockCount ∧
      (∀ j, j ≠ id → lk₁.heap j = lk.heap j) ∧
      lk₁.nextId = lk.nextId ∧
      lk₁.locks = (if (lk.heap id).queueSize - 1 = 0 then
          mapErase lk.locks (lk.heap id).name
        else lk.locks) := by
  by_cases hz : (lk.heap id).queueSize - 1 = 0
  · simp only [Release, if_neg hne, hz, if_pos]
    refine ⟨_, rfl, ?_, ?_, ?_, ?_, ?_, rfl, ?_⟩
    · simp [hupdate_self]
    · simp [hupdate_self]
    · simp [hupdate_self]
    · simp [hupdate_self]
    · intro j hj
      simp [hupdate_ne _ _ hj]
    · simp [hz]
  · simp only [Release, if_neg hne, hz, if_neg, if_false]
    refine ⟨_, rfl, ?_, ?_, ?_, ?_, ?_, rfl, ?_⟩
    · simp [hupdate_self]
    · simp [hupdate_self]
    · simp [hupdate_self]
    · simp [hupdate_self]
    · intro j hj
      simp [hupdate_ne _ _ hj]
    · simp [hz]

theorem RRelease_spec (lk : namedLocker) (id : Nat)
    (hne : (lk.heap id).name ≠ "") :
    ∃ lk₁, RRelease lk id = .ok lk₁ ∧
      (lk₁.heap id).name = (lk.heap id).name ∧
      (lk₁.heap id).queueSize = (lk.heap id).queueSize - 1 ∧
      (lk₁.heap id).writeLockMode = (lk.heap id).writeLockMode ∧
      (lk₁.heap id).writeLockCount = (lk.heap id).writeLockCount ∧
      (∀ j, j ≠ id → lk₁.heap j = lk.heap j) ∧
      lk₁.nextId = lk.nextId ∧
      lk₁.locks = (if (lk.heap id).queueSize - 1 = 0 then
          mapErase lk.locks (lk.heap id).name
        else lk.locks) := by
  by_cases hz : (lk.heap id).queueSize - 1 = 0
  · simp only [RRelease, if_neg hne, hz, if_pos]
    refine ⟨_, rfl, ?_, ?_, ?_, ?_, ?_, rfl, ?_⟩
    · simp [hupdate_self]
    · simp [hupdate_self]
    · simp [hupdate_self]
    · simp [hupdate_self]
    · intro j hj
      simp [hupdate_ne _ _ hj]
    · simp [hz]
  · simp only [RRelease, if_neg hne, hz, if_neg, if_false]
    refine ⟨_, rfl, ?_, ?_, ?_, ?_, ?_, rfl, ?_⟩
    · simp [hupdate_self]
    · simp [hupdate_self]
    · simp [hupdate_self]
    · simp [hupdate_self]
    · intro j hj
      simp [hupdate_ne _ _ hj]
    · simp [hz]

theorem Upgrade_spec (lk : namedLocker) (id : Nat) :
    ∃ lk₁, Upgrade lk id = .ok (lk₁, id) ∧
      (lk₁.heap id).name = (lk.heap id).name ∧
      (lk₁.heap id).writeLockMode = 1 ∧
      (lk₁.heap id).writeLockCount = (lk.heap id).writeLockCount + 1 ∧
      (∀ j, j ≠ id → lk₁.heap j = lk.heap j) ∧
      lk₁.nextId = lk.nextId ∧
      (lk₁.heap id).queueSize =
        (if (lk.heap id).name = "" then (lk.heap id).queueSize + 1
         else (lk.heap id).queueSize) ∧
      lk₁.locks =
        (if (lk.heap id).name = "" then lk.locks
         else if (lk.heap id).queueSize = 0 then
           mapErase lk.locks (lk.heap id).name
         else lk.locks) := by
  by_cases he : (lk.heap id).name = ""
  · have hR : RRelease
        { lk with heap := hupdate lk.heap id ({ lk.heap id with queueSize := (lk.heap id).queueSize + 1 }) } id
        = .error (errInvalidLockName "") :=
      RRelease_err _ (by simp [hupdate_self, he])
    simp only [Upgrade, hR]
    refine ⟨_, rfl, ?_, ?_, ?_, ?_, rfl, ?_, ?_⟩
    · simp [hupdate_self, he]
    · simp [hupdate_self]
    · simp [hupdate_self]
    · intro j hj
      simp [hupdate_ne _ _ hj]
    · simp [hupdate_self, he]
    · simp [he]
  · obtain ⟨lk₂, hR, h1, h2, h3, h4, h5, h6, h7⟩ :=
      RRelease_spec
        { lk with heap := hupdate lk.heap id ({ lk.heap id with queueSize := (lk.heap id).queueSize + 1 }) }
        id (by simp [hupdate_self, he])
    simp only [hupdate_self] at h1 h2 h3 h4 h7
    simp only [Upgrade, hR]
    refine ⟨_, rfl, ?_, ?_, ?_, ?_, ?_, ?_, ?_⟩
    · simp [hupdate_self, h1, he]
    · simp [hupdate_self]
    · simp [hupdate_self, h4]
    · intro j hj
      have := h5 j hj
      simp only [hupdate_ne _ _ hj] at this
      simp [hupdate_ne _ _ hj, this]
    · simpa using h6
    · simp [hupdate_self, h2, he]
    · simp only [he, if_false]
      simpa using h7

theorem entryReachable_rw_inv {e : entryState} (h : EntryReachable e) :
    e.writers ≤ 1 ∧ (0 < e.writers → e.readers = 0) := by
  induction h with
  | init => simp [entryInit]
  | step a h happ ih =>
    cases a
    all_goals simp only [MStep.apply] at happ
    · cases happ
      simpa using ih
    · cases happ
      simpa using ih
    · cases happ
      simpa using ih
    · cases happ
      simpa using ih
    · split at happ
      · cases happ
        simp_all
      · cases happ
    · split at happ
      · cases happ
        simp_all
      · cases happ
    · split at happ
      · cases happ
        simp_all
      · cases happ
    · split at happ
      · cases happ
        simp_all
      · cases happ

theorem entry_two_readers :
    EntryReachable { queueSize := 2, writeLockMode := 0, writeLockCount := 0,
                     readers := 2, writers := 0 } := by
  have h1 := EntryReachable.step .incQ EntryReachable.init rfl
  have h2 := EntryReachable.step (.storeWlm 0) h1 rfl
  have h3 := EntryReachable.step .rlock h2 rfl
  have h4 := EntryReachable.step .incQ h3 rfl
  have h5 := EntryReachable.step (.storeWlm 0) h4 rfl
  have h6 := EntryReachable.step .rlock h5 rfl
  exact h6

theorem upgStep_inv {n : Int} (hn : 1 ≤ n) {s s₁ : UpgState}
    (hinv : UpgInv n s) (hstep : UpgStep s s₁) : UpgInv n s₁ := by
  obtain ⟨i1, i2, i3, i4, i5, i6, i7⟩ := hinv
  cases hstep with
  | g_incQ h =>
    refine ⟨?_, ?_, ?_, ?_, ?_, ?_, ?_⟩ <;> simp_all
  | g_send h =>
    refine ⟨?_, ?_, ?_, ?_, ?_, ?_, ?_⟩ <;> simp_all
  | g_storeWlm h =>
    refine ⟨?_, ?_, ?_, ?_, ?_, ?_, ?_⟩ <;> simp_all
  | g_lock h hw hr =>
    refine ⟨?_, ?_, ?_, ?_, ?_, ?_, ?_⟩ <;> simp_all
  | g_incWlc h =>
    refine ⟨?_, ?_, ?_, ?_, ?_, ?_, ?_⟩ <;> simp_all
  | c_recv h hch =>
    refine ⟨?_, ?_, ?_, ?_, ?_, ?_, ?_⟩ <;> simp_all
  | c_decQ h =>
    refine ⟨?_, ?_, ?_, ?_, ?_, ?_, ?_⟩ <;> simp_all <;> omega
  | c_mapCheck h =>
    refine ⟨?_, ?_, ?_, ?_, ?_, ?_, ?_⟩ <;> simp_all
    omega
  | c_runlock h hr =>
    refine ⟨?_, ?_, ?_, ?_, ?_, ?_, ?_⟩ <;> simp_all
  | c_wait h hg =>
    refine ⟨?_, ?_, ?_, ?_, ?_, ?_, ?_⟩ <;> simp_all

theorem upgReach_inv {n : Int} (hn : 1 ≤ n) {s₀ s : UpgState}
    (h0 : UpgInit s₀) (hq : s₀.ent.queueSize = n)
    (hr : Relation.ReflTransGen UpgStep s₀ s) : UpgInv n s := by
  obtain ⟨g0, c0, ch0, m0⟩ := h0
  induction hr with
  | refl =>
    refine ⟨?_, ?_, ?_, ?_, ?_, ?_, ?_⟩ <;> simp_all
  | tail hr hstep ih => exact upgStep_inv hn ih hstep

theorem RegInv_init : RegInv NewNamedLocker := by
  refine ⟨?_, ?_, ?_, ?_⟩ <;> intro i <;> simp [NewNamedLocker, mapLookup, newNamedLock]

theorem RegInv_preserve_existing {lk lk₁ : namedLocker} {name : String}
    {id : Nat} (hinv : RegInv lk) (hl : mapLookup lk.locks name = some id)
    (hlocks : lk₁.locks = lk.locks) (hnext : lk₁.nextId = lk.nextId)
    (hnm : (lk₁.heap id).name = (lk.heap id).name)
    (hqs : 0 < (lk.heap id).queueSize → 0 < (lk₁.heap id).queueSize)
    (hother : ∀ j, j ≠ id → lk₁.heap j = lk.heap j) : RegInv lk₁ := by
  obtain ⟨inv1, inv2, inv3, inv4⟩ := hinv
  refine ⟨?_, ?_, ?_, ?_⟩
  · intro nm i hli
    rw [hlocks] at hli
    by_cases hi : i = id
    · subst hi
      obtain ⟨h₁, h₂⟩ := inv1 nm i hli
      exact ⟨by rw [hnm, h₁], hqs h₂⟩
    · rw [hother i hi]
      exact inv1 nm i hli
  · intro i hqi
    by_cases hi : i = id
    · subst hi
      rw [hlocks, hnm]
      obtain ⟨h₁, _⟩ := inv1 name i hl
      rw [h₁]
      exact hl
    · rw [hother i hi] at hqi ⊢
      rw [hlocks]
      exact inv2 i hqi
  · intro nm i hli
    rw [hlocks] at hli
    rw [hnext]
    exact inv3 nm i hli
  · intro i hni
    rw [hnext] at hni
    have hid : id < lk.nextId := inv3 name id hl
    have hine : i ≠ id := by omega
    rw [hother i hine]
    exact inv4 i hni

theorem RegInv_preserve_fresh {lk lk₁ : namedLocker} {name : String}
    (hinv : RegInv lk) (hl : mapLookup lk.locks name = none)
    (hlocks : lk₁.locks = mapInsert lk.locks name lk.nextId)
    (hnext : lk₁.nextId = lk.nextId + 1)
    (hnm : (lk₁.heap lk.nextId).name = name)
    (hqs : (lk₁.heap lk.nextId).queueSize = 1)
    (hother : ∀ j, j ≠ lk.nextId → lk₁.heap j = lk.heap j) : RegInv lk₁ := by
  obtain ⟨inv1, inv2, inv3, inv4⟩ := hinv
  refine ⟨?_, ?_, ?_, ?_⟩
  · intro nm i hli
    rw [hlocks] at hli
    by_cases hn : nm = name
    · subst hn
      rw [mapLookup_mapInsert_self] at hli
      cases hli
      exact ⟨by rw [hnm], by rw [hqs]; omega⟩
    · rw [mapLookup_mapInsert_ne _ _ hn] at hli
      have hilt : i < lk.nextId := inv3 nm i hli
      have hine : i ≠ lk.nextId := by omega
      rw [hother i hine]
      exact inv1 nm i hli
  · intro i hqi
    by_cases hi : i = lk.nextId
    · subst hi
      rw [hlocks, hnm]
      exact mapLookup_mapInsert_self _ _ _
    · rw [hother i hi] at hqi ⊢
      have h₂ := inv2 i hqi
      rw [hlocks]
      have hnn : (lk.heap i).name ≠ name := by
        intro hcontra
        rw [hcontra, hl] at h₂
        cases h₂
      rw [mapLookup_mapInsert_ne _ _ hnn]
      exact h₂
  · intro nm i hli
    rw [hlocks] at hli
    rw [hnext]
    by_cases hn : nm = name
    · subst hn
      rw [mapLookup_mapInsert_self] at hli
      cases hli
      omega
    · rw [mapLookup_mapInsert_ne _ _ hn] at hli
      have := inv3 nm i hli
      omega
  · intro i hni
    rw [hnext] at hni
    have hine : i ≠ lk.nextId := by omega
    rw [hother i hine]
    exact inv4 i (by omega)

theorem RegInv_preserve_dec {lk lk₁ : namedLocker} {id : Nat}
    (hinv : RegInv lk) (hq : 0 < (lk.heap id).queueSize)
    (hnm : (lk₁.heap id).name = (lk.heap id).name)
    (hqs : (lk₁.heap id).queueSize = (lk.heap id).queueSize - 1)
    (hother : ∀ j, j ≠ id → lk₁.heap j = lk.heap j)
    (hnext : lk₁.nextId = lk.nextId)
    (hlocks : lk₁.locks = (if (lk.heap id).queueSize - 1 = 0 then
        mapErase lk.locks (lk.heap id).name
      else lk.locks)) : RegInv lk₁ := by
  obtain ⟨inv1, inv2, inv3, inv4⟩ := hinv
  have hmap : mapLookup lk.locks (lk.heap id).name = some id := inv2 id hq
  by_cases hz : (lk.heap id).queueSize - 1 = 0
  · rw [if_pos hz] at hlocks
    refine ⟨?_, ?_, ?_, ?_⟩
    · intro nm i hli
      rw [hlocks] at hli
      by_cases hn : nm = (lk.heap id).name
      · subst hn
        rw [mapLookup_mapErase_self] at hli
        cases hli
      · rw [mapLookup_mapErase_ne _ hn] at hli
        obtain ⟨h₁, h₂⟩ := inv1 nm i hli
        have hine : i ≠ id := by
          intro hcontra
          subst hcontra
          exact hn h₁.symm
        rw [hother i hine]
        exact ⟨h₁, h₂⟩
    · intro i hqi
      by_cases hi : i = id
      · subst hi
        rw [hqs] at hqi
        omega
      · rw [hother i hi] at hqi ⊢
        have h₂ := inv2 i hqi
        rw [hlocks]
        have hnn : (lk.heap i).name ≠ (lk.heap id).name := by
          intro hcontra
          rw [hcontra, hmap] at h₂
          cases h₂
          exact hi rfl
        rw [mapLookup_mapErase_ne _ hnn]
        exact h₂
    · intro nm i hli
      rw [hlocks] at hli
      rw [hnext]
      by_cases hn : nm = (lk.heap id).name
      · subst hn
        rw [mapLookup_mapErase_self] at hli
        cases hli
      · rw [mapLookup_mapErase_ne _ hn] at hli
        exact inv3 nm i hli
    · intro i hni
      rw [hnext] at hni
      have hid : id < lk.nextId := inv3 _ id hmap
      have hine : i ≠ id := by omega
      rw [hother i hine]
      exact inv4 i hni
  · rw [if_neg hz] at hlocks
    refine ⟨?_, ?_, ?_, ?_⟩
    · intro nm i hli
      rw [hlocks] at hli
      by_cases hi : i = id
      · subst hi
        obtain ⟨h₁, h₂⟩ := inv1 nm i hli
        exact ⟨by rw [hnm, h₁], by rw [hqs]; omega⟩
      · rw [hother i hi]
        exact inv1 nm i hli
    · intro i hqi
      by_cases hi : i = id
      · subst hi
        rw [hlocks, hnm]
        exact hmap
      · rw [hother i hi] at hqi ⊢
        rw [hlocks]
        exact inv2 i hqi
    · intro nm i hli
      rw [hlocks] at hli
      rw [hnext]
      exact inv3 nm i hli
    · intro i hni
      rw [hnext] at hni
      have hid : id < lk.nextId := inv3 _ id hmap
      have hine : i ≠ id := by omega
      rw [hother i hine]
      exact inv4 i hni

/-- C1: For every non-empty name, the per-name lock is a reader/writer
exclusion: in every reachable state of an entry's micro-step machine at
most one caller holds the exclusive lock (obtained via `Acquire` or
`Upgrade`, both of which end in the entry's `Lock()` transition), no shared
holder and exclusive holder coexist, and a state with several concurrent
`RAcquire` holders is reachable. -/
theorem C1_per_name_reader_writer_exclusion :
    (∀ e : entryState, EntryReachable e →
        e.writers ≤ 1 ∧ (0 < e.writers → e.readers = 0)) ∧
    (∃ e : entryState, EntryReachable e ∧ 2 ≤ e.readers) :=
  ⟨fun _ h => entryReachable_rw_inv h,
   ⟨_, entry_two_readers, by norm_num⟩⟩

/-- C1 witness: the invariant instantiated at the reachable initial
state. -/
theorem C1_witness : entryInit.writers ≤ 1 :=
  (C1_per_name_reader_writer_exclusion.1 entryInit EntryReachable.init).1

/-- C2 counterexample: contrary to the claim, in the program order of
`Acquire` the store of 1 into `writeLockMode` (the `pendingWrite := true`
step) does not happen before the release of the registry's `mapLock`; in
the source it is executed after `lk.mapLock.Unlock()`. -/
theorem C2_counterexample :
    ¬ occursBefore (.storeWriteLockMode 1) .mapLockRelease
        (acquireTrace false) := by
  decide

/-- C2 (amended): in `Acquire` on a non-empty name, the lookup, the
insertion of a fresh entry when absent, and the reference-count increment
all happen between the acquisition and the release of the registry's
`mapLock`; `pendingWrite := true` is stored only after the `mapLock` is
released and before the blocking exclusive acquisition; on success
`writeAcquisitions` is incremented and a handle to that entry is
returned. -/
theorem C2_acquire_maplock_ordering :
    (∀ present : Bool,
        occursBefore .mapLockAcquire .mapLookupName (acquireTrace present) ∧
        occursBefore .mapLookupName .incQueueSize (acquireTrace present) ∧
        occursBefore .incQueueSize .mapLockRelease (acquireTrace present) ∧
        occursBefore .mapLockRelease (.storeWriteLockMode 1)
          (acquireTrace present) ∧
        occursBefore (.storeWriteLockMode 1) .lockExclusive
          (acquireTrace present) ∧
        occursBefore .lockExclusive .incWriteLockCount
          (acquireTrace present)) ∧
    (occursBefore .mapLookupName .newEntryInsert (acquireTrace false) ∧
     occursBefore .newEntryInsert .incQueueSize (acquireTrace false) ∧
     LockAction.newEntryInsert ∉ acquireTrace true) ∧
    (∀ lk name id, name ≠ "" → mapLookup lk.locks name = some id →
        ∃ lk₁, Acquire lk name = .ok (lk₁, id) ∧
          (lk₁.heap id).queueSize = (lk.heap id).queueSize + 1 ∧
          (lk₁.heap id).writeLockMode = 1 ∧
          (lk₁.heap id).writeLockCount = (lk.heap id).writeLockCount + 1) ∧
    (∀ lk name, name ≠ "" → mapLookup lk.locks name = none →
        ∃ lk₁, Acquire lk name = .ok (lk₁, lk.nextId) ∧
          mapLookup lk₁.locks name = some lk.nextId ∧
          (lk₁.heap lk.nextId).queueSize = 1 ∧
          (lk₁.heap lk.nextId).writeLockMode = 1 ∧
          (lk₁.heap lk.nextId).writeLockCount = 1) := by
  refine ⟨by decide, by decide, ?_, ?_⟩
  · intro lk name id hne hl
    obtain ⟨lk₁, hA, _, _, _, hqs, hwm, hwc, _⟩ := Acquire_existing lk hne hl
    exact ⟨lk₁, hA, hqs, hwm, hwc⟩
  · intro lk name hne hl
    obtain ⟨lk₁, hA, hlocks, _, _, hqs, hwm, hwc, _⟩ := Acquire_fresh lk hne hl
    exact ⟨lk₁, hA, by rw [hlocks]; exact mapLookup_mapInsert_self _ _ _,
           hqs, hwm, hwc⟩

/-- C2 witness: the amended acquisition facts at the empty registry and
the name `"k"`. -/
theorem C2_witness :
    ∃ lk₁, Acquire NewNamedLocker "k" = .ok (lk₁, NewNamedLocker.nextId) ∧
      mapLookup lk₁.locks "k" = some NewNamedLocker.nextId ∧
      (lk₁.heap NewNamedLocker.nextId).queueSize = 1 ∧
      (lk₁.heap NewNamedLocker.nextId).writeLockMode = 1 ∧
      (lk₁.heap NewNamedLocker.nextId).writeLockCount = 1 :=
  C2_acquire_maplock_ordering.2.2.2 NewNamedLocker "k" (by decide) rfl

/-- C3: `Release` on a non-empty-name handle performs, in program order,
the clearing of `pendingWrite`, then the reference-count decrement, then —
exactly when the decremented count is zero — the removal of the name from
the registry map under the `mapLock`, and only after that check the
release of the exclusive primitive; the call returns success, and in the
atomic model the resulting state has `writeLockMode = 0`, the decremented
count, and the name absent from the map exactly when the decremented count
is zero. -/
theorem C3_release_order_and_effects :
    (∀ lastRef : Bool,
        occursBefore (.storeWriteLockMode 0) .decQueueSize
          (releaseTrace lastRef) ∧
        occursBefore .decQueueSize .unlockExclusive (releaseTrace lastRef)) ∧
    (occursBefore .decQueueSize .mapDeleteName (releaseTrace true) ∧
     occursBefore .mapLockAcquire .mapDeleteName (releaseTrace true) ∧
     occursBefore .mapDeleteName .mapLockRelease (releaseTrace true) ∧
     occursBefore .mapDeleteName .unlockExclusive (releaseTrace true) ∧
     LockAction.mapDeleteName ∉ releaseTrace false) ∧
    (∀ lk id, (lk.heap id).name ≠ "" →
        ∃ lk₁, Release lk id = .ok lk₁ ∧
          (lk₁.heap id).writeLockMode = 0 ∧
          (lk₁.heap id).queueSize = (lk.heap id).queueSize - 1 ∧
          ((lk.heap id).queueSize - 1 = 0 →
              mapLookup lk₁.locks (lk.heap id).name = none) ∧
          ((lk.heap id).queueSize - 1 ≠ 0 → lk₁.locks = lk.locks)) := by
  refine ⟨by decide, by decide, ?_⟩
  intro lk id hne
  obtain ⟨lk₁, hR, hnm, hqs, hwm, hwc, hother, hnext, hlocks⟩ :=
    Release_spec lk id hne
  refine ⟨lk₁, hR, hwm, hqs, ?_, ?_⟩
  · intro hz
    rw [hlocks, if_pos hz]
    exact mapLookup_mapErase_self _ _
  · intro hz
    rw [hlocks, if_neg hz]

/-- C3 witness: releasing the single outstanding reference of `exLocker`
clears the flag, decrements the count and removes the name from the
map. -/
theorem C3_witness :
    ∃ lk₁, Release exLocker 0 = .ok lk₁ ∧
      (lk₁.heap 0).writeLockMode = 0 ∧
      (lk₁.heap 0).queueSize = (exLocker.heap 0).queueSize - 1 ∧
      mapLookup lk₁.locks (exLocker.heap 0).name = none := by
  obtain ⟨lk₁, hR, hwm, hqs, hz, _⟩ :=
    C3_release_order_and_effects.2.2 exLocker 0 (by decide)
  exact ⟨lk₁, hR, hwm, hqs, hz (by decide)⟩

/-- C4: during `Upgrade`, in every state reachable by interleaving the two
tasks, the caller's `RRelease` decrement can only have happened after the
goroutine's reference-count increment (the channel rendezvous orders
them), and — when the entry started with at least one reference — the
reference count never reaches zero and the entry is never removed from the
registry map while the upgrade is in flight. -/
theorem C4_upgrade_refcount_safety (n : Int) (s₀ s : UpgState) (hn : 1 ≤ n)
    (h0 : UpgInit s₀) (hq : s₀.ent.queueSize = n)
    (hr : Relation.ReflTransGen UpgStep s₀ s) :
    (2 ≤ s.cpc → 2 ≤ s.gpc) ∧ 1 ≤ s.ent.queueSize ∧ s.inMap = true := by
  obtain ⟨i1, i2, i3, i4, i5, i6, i7⟩ := upgReach_inv hn h0 hq hr
  refine ⟨?_, ?_, i7⟩
  · intro hc
    exact i1.mp (i2 (by omega))
  · by_cases hc : 2 ≤ s.cpc
    · rw [i3 hc]
      omega
    · by_cases hg : 1 ≤ s.gpc
      · rw [i4 (by omega) hg]
        omega
      · rw [i5 (by omega)]
        omega

/-- C4 witness: the safety facts at the machine's concrete initial
state. -/
theorem C4_witness :
    1 ≤ upgExample.ent.queueSize ∧ upgExample.inMap = true :=
  (C4_upgrade_refcount_safety 1 upgExample upgExample (by norm_num)
    ⟨rfl, rfl, rfl, rfl⟩ rfl Relation.ReflTransGen.refl).2

/-- C5: the registry/reference-count invariant `RegInv` — a name is bound
in the registry map exactly when its entry's reference count is positive —
is preserved by `Acquire`, `RAcquire`, `Release`, `RRelease` and `Upgrade`
(the release-type operations taken on a handle that is actually held, i.e.
whose entry has a positive count); moreover insertion happens synchronously
on the first acquire of a fresh name and removal happens synchronously on
the release that brings the count to zero. -/
theorem C5_registry_refcount_invariant :
    (∀ lk name, RegInv lk → name ≠ "" →
        ∃ lk₁ id, Acquire lk name = .ok (lk₁, id) ∧ RegInv lk₁) ∧
    (∀ lk name, RegInv lk → name ≠ "" →
        ∃ lk₁ id, RAcquire lk name = .ok (lk₁, id) ∧ RegInv lk₁) ∧
    (∀ lk id, RegInv lk → 0 < (lk.heap id).queueSize →
        (lk.heap id).name ≠ "" →
        ∃ lk₁, Release lk id = .ok lk₁ ∧ RegInv lk₁) ∧
    (∀ lk id, RegInv lk → 0 < (lk.heap id).queueSize →
        (lk.heap id).name ≠ "" →
        ∃ lk₁, RRelease lk id = .ok lk₁ ∧ RegInv lk₁) ∧
    (∀ lk id, RegInv lk → 0 < (lk.heap id).queueSize →
        ∃ lk₁, Upgrade lk id = .ok (lk₁, id) ∧ RegInv lk₁) ∧
    (∀ lk name, name ≠ "" → mapLookup lk.locks name = none →
        ∃ lk₁ id, Acquire lk name = .ok (lk₁, id) ∧
          mapLookup lk₁.locks name = some id ∧
          0 < (lk₁.heap id).queueSize) ∧
    (∀ lk id, (lk.heap id).name ≠ "" → (lk.heap id).queueSize = 1 →
        ∃ lk₁, Release lk id = .ok lk₁ ∧
          mapLookup lk₁.locks (lk.heap id).name = none) := by
  refine ⟨?_, ?_, ?_, ?_, ?_, ?_, ?_⟩
  · intro lk name hinv hne
    cases hl : mapLookup lk.locks name with
    | some id =>
      obtain ⟨lk₁, hA, hlocks, hnext, hnm, hqs, _, _, hother⟩ :=
        Acquire_existing lk hne hl
      exact ⟨lk₁, id, hA,
        RegInv_preserve_existing hinv hl hlocks hnext hnm
          (fun h => by rw [hqs]; omega) hother⟩
    | none =>
      obtain ⟨lk₁, hA, hlocks, hnext, hnm, hqs, _, _, hother⟩ :=
        Acquire_fresh lk hne hl
      exact ⟨lk₁, lk.nextId, hA,
        RegInv_preserve_fresh hinv hl hlocks hnext hnm hqs hother⟩
  · intro lk name hinv hne
    cases hl : mapLookup lk.locks name with
    | some id =>
      obtain ⟨lk₁, hA, hlocks, hnext, hnm, hqs, _, _, hother⟩ :=
        RAcquire_existing lk hne hl
      exact ⟨lk₁, id, hA,
        RegInv_preserve_existing hinv hl hlocks hnext hnm
          (fun h => by rw [hqs]; omega) hother⟩
    | none =>
      obtain ⟨lk₁, hA, hlocks, hnext, hnm, hqs, _, _, hother⟩ :=
        RAcquire_fresh lk hne hl
      exact ⟨lk₁, lk.nextId, hA,
        RegInv_preserve_fresh hinv hl hlocks hnext hnm hqs hother⟩
  · intro lk id hinv hq hne
    obtain ⟨lk₁, hR, hnm, hqs, _, _, hother, hnext, hlocks⟩ :=
      Release_spec lk id hne
    exact ⟨lk₁, hR,
      RegInv_preserve_dec hinv hq hnm hqs hother hnext hlocks⟩
  · intro lk id hinv hq hne
    obtain ⟨lk₁, hR, hnm, hqs, _, _, hother, hnext, hlocks⟩ :=
      RRelease_spec lk id hne
    exact ⟨lk₁, hR,
      RegInv_preserve_dec hinv hq hnm hqs hother hnext hlocks⟩
  · intro lk id hinv hq
    obtain ⟨lk₁, hU, hnm, _, _, hother, hnext, hqs, hlocks⟩ :=
      Upgrade_spec lk id
    have hmap : mapLookup lk.locks (lk.heap id).name = some id :=
      hinv.2.1 id hq
    refine ⟨lk₁, hU, ?_⟩
    by_cases he : (lk.heap id).name = ""
    · rw [if_pos he] at hqs hlocks
      exact RegInv_preserve_existing hinv hmap hlocks hnext hnm
        (fun h => by rw [hqs]; omega) hother
    · rw [if_neg he] at hqs hlocks
      rw [if_neg (by omega)] at hlocks
      exact RegInv_preserve_existing hinv hmap hlocks hnext hnm
        (fun h => by rw [hqs]; omega) hother
  · intro lk name hne hl
    obtain ⟨lk₁, hA, hlocks, _, _, hqs, _, _, _⟩ := Acquire_fresh lk hne hl
    refine ⟨lk₁, lk.nextId, hA, ?_, by rw [hqs]; omega⟩
    rw [hlocks]
    exact mapLookup_mapInsert_self _ _ _
  · intro lk id hne hq1
    obtain ⟨lk₁, hR, _, _, _, _, _, _, hlocks⟩ := Release_spec lk id hne
    refine ⟨lk₁, hR, ?_⟩
    rw [hlocks, if_pos (by omega)]
    exact mapLookup_mapErase_self _ _

/-- C5 witness: synchronous insertion at the empty registry and
synchronous removal at `exLocker`. -/
theorem C5_witness :
    (∃ lk₁ id, Acquire NewNamedLocker "k" = .ok (lk₁, id) ∧
        mapLookup lk₁.locks "k" = some id ∧
        0 < (lk₁.heap id).queueSize) ∧
    (∃ lk₁, Release exLocker 0 = .ok lk₁ ∧
        mapLookup lk₁.locks (exLocker.heap 0).name = none) :=
  ⟨C5_registry_refcount_invariant.2.2.2.2.2.1 NewNamedLocker "k"
      (by decide) rfl,
    C5_registry_refcount_invariant.2.2.2.2.2.2 exLocker 0 (by decide)
      (by decide)⟩

/-- C6: `Acquire("")` and `RAcquire("")` return the `InvalidLockName`
error (in the atomic model the error return itself carries no state, so the
registry and all counters are untouched); for every non-empty name both
operations succeed. -/
theorem C6_empty_name_rejected :
    (∀ lk, Acquire lk "" = .error (errInvalidLockName "")) ∧
    (∀ lk, RAcquire lk "" = .error (errInvalidLockName "")) ∧
    (∀ lk name, name ≠ "" → ∃ r, Acquire lk name = .ok r) ∧
    (∀ lk name, name ≠ "" → ∃ r, RAcquire lk name = .ok r) := by
  refine ⟨Acquire_empty, RAcquire_empty, ?_, ?_⟩
  · intro lk name hne
    cases hl : mapLookup lk.locks name with
    | some id =>
      obtain ⟨lk₁, hA, _⟩ := Acquire_existing lk hne hl
      exact ⟨_, hA⟩
    | none =>
      obtain ⟨lk₁, hA, _⟩ := Acquire_fresh lk hne hl
      exact ⟨_, hA⟩
  · intro lk name hne
    cases hl : mapLookup lk.locks name with
    | some id =>
      obtain ⟨lk₁, hA, _⟩ := RAcquire_existing lk hne hl
      exact ⟨_, hA⟩
    | none =>
      obtain ⟨lk₁, hA, _⟩ := RAcquire_fresh lk hne hl
      exact ⟨_, hA⟩

/-- C6 witness: both success clauses at the registry `exLocker` and the
non-empty name `"m"`. -/
theorem C6_witness :
    (∃ r, Acquire exLocker "m" = .ok r) ∧
    (∃ r, RAcquire exLocker "m" = .ok r) :=
  ⟨C6_empty_name_rejected.2.2.1 exLocker "m" (by decide),
   C6_empty_name_rejected.2.2.2 exLocker "m" (by decide)⟩

/-- C7: `Release` and `RRelease` fail exactly on a handle whose entry was
constructed with an empty name, and then with the `InvalidLockName` error
(returned before any mutation, so nothing changes); on any entry with a
non-empty name both return success. -/
theorem C7_release_error_iff_empty_name :
    (∀ lk id, (lk.heap id).name = "" →
        Release lk id = .error (errInvalidLockName "") ∧
        RRelease lk id = .error (errInvalidLockName "")) ∧
    (∀ lk id, (lk.heap id).name ≠ "" →
        (∃ lk₁, Release lk id = .ok lk₁) ∧
        (∃ lk₁, RRelease lk id = .ok lk₁)) := by
  refine ⟨?_, ?_⟩
  · intro lk id he
    exact ⟨Release_err lk he, RRelease_err lk he⟩
  · intro lk id hne
    obtain ⟨lk₁, hR, _⟩ := Release_spec lk id hne
    obtain ⟨lk₂, hR₂, _⟩ := RRelease_spec lk id hne
    exact ⟨⟨lk₁, hR⟩, ⟨lk₂, hR₂⟩⟩

/-- C7 witness: the error clause at the empty registry (whose unallocated
cells carry the empty name) and the success clause at `exLocker`. -/
theorem C7_witness :
    (Release NewNamedLocker 0 = .error (errInvalidLockName "") ∧
     RRelease NewNamedLocker 0 = .error (errInvalidLockName "")) ∧
    ((∃ lk₁, Release exLocker 0 = .ok lk₁) ∧
     (∃ lk₁, RRelease exLocker 0 = .ok lk₁)) :=
  ⟨C7_release_error_iff_empty_name.1 NewNamedLocker 0 rfl,
   C7_release_error_iff_empty_name.2 exLocker 0 (by decide)⟩

/-- C8: `RAcquire` on a non-empty name increments the entry's reference
count and then stores 0 into the entry's single shared `writeLockMode`
flag unconditionally, so after it `WriteLockMode` returns `false`; at the
micro-step level, a shared acquisition processed after a writer has
published its pending flag clears that flag while the writer is still
blocked waiting for the exclusive lock. -/
theorem C8_racquire_clears_pending_flag :
    (∀ present : Bool,
        occursBefore .incQueueSize (.storeWriteLockMode 0)
          (rAcquireTrace present)) ∧
    (∀ lk name id, name ≠ "" → mapLookup lk.locks name = some id →
        ∃ lk₁, RAcquire lk name = .ok (lk₁, id) ∧
          (lk₁.heap id).queueSize = (lk.heap id).queueSize + 1 ∧
          (lk₁.heap id).writeLockMode = 0 ∧
          WriteLockMode lk₁ id = false) ∧
    (∀ lk name, name ≠ "" → mapLookup lk.locks name = none →
        ∃ lk₁, RAcquire lk name = .ok (lk₁, lk.nextId) ∧
          (lk₁.heap lk.nextId).writeLockMode = 0 ∧
          WriteLockMode lk₁ lk.nextId = false) ∧
    (∃ e : entryState,
        runSteps (rAcquireEntrySteps ++ acquirePendingSteps
            ++ rAcquireEntrySteps) entryInit = some e ∧
        entryWriteLockMode e = false ∧ e.writers = 0 ∧
        MStep.lock.apply e = none) := by
  refine ⟨by decide, ?_, ?_, ?_⟩
  · intro lk name id hne hl
    obtain ⟨lk₁, hA, _, _, _, hqs, hwm, _, _⟩ := RAcquire_existing lk hne hl
    exact ⟨lk₁, hA, hqs, hwm, by simp [WriteLockMode, hwm]⟩
  · intro lk name hne hl
    obtain ⟨lk₁, hA, _, _, _, _, hwm, _, _⟩ := RAcquire_fresh lk hne hl
    exact ⟨lk₁, hA, hwm, by simp [WriteLockMode, hwm]⟩
  · exact ⟨_, rfl, by decide, by decide, by decide⟩

/-- C8 witness: the reader-after-writer clause at `exLocker` (whose entry
carries `writeLockMode = 1`, a pending writer) and the name `"k"`. -/
theorem C8_witness :
    ∃ lk₁, RAcquire exLocker "k" = .ok (lk₁, 0) ∧
      (lk₁.heap 0).queueSize = (exLocker.heap 0).queueSize + 1 ∧
      (lk₁.heap 0).writeLockMode = 0 ∧
      WriteLockMode lk₁ 0 = false :=
  C8_racquire_clears_pending_flag.2.1 exLocker "k" 0 (by decide) rfl

/-- C9: `Upgrade` returns a handle bound to the same entry as the handle
it was called on (same id, same name field), and the entry's
`writeLockCount` observed through the returned handle is exactly one more
— in particular strictly greater — than before the call. -/
theorem C9_upgrade_same_entry_counter_increase (lk : namedLocker)
    (id : Nat) :
    ∃ lk₁, Upgrade lk id = .ok (lk₁, id) ∧
      (lk₁.heap id).name = (lk.heap id).name ∧
      WriteLockCounter lk₁ id = WriteLockCounter lk id + 1 ∧
      WriteLockCounter lk id < WriteLockCounter lk₁ id := by
  obtain ⟨lk₁, hU, hnm, _, hwc, _⟩ := Upgrade_spec lk id
  refine ⟨lk₁, hU, hnm, ?_, ?_⟩ <;> simp [WriteLockCounter, hwc]

/-- C10: a `Release` or `RRelease` whose decremented count is nonzero
leaves the registry map untouched and takes no map action in its trace
(no `mapLock` acquisition, no deletion); `RRelease` never changes
`writeLockMode` or `writeLockCount`; neither operation changes the
entry's name or any other entry. -/
theorem C10_release_frame_conditions :
    (∀ lk id, (lk.heap id).name ≠ "" → (lk.heap id).queueSize - 1 ≠ 0 →
        ∃ lk₁, Release lk id = .ok lk₁ ∧ lk₁.locks = lk.locks ∧
          (lk₁.heap id).name = (lk.heap id).name ∧
          (∀ j, j ≠ id → lk₁.heap j = lk.heap j)) ∧
    (∀ lk id, (lk.heap id).name ≠ "" → (lk.heap id).queueSize - 1 ≠ 0 →
        ∃ lk₁, RRelease lk id = .ok lk₁ ∧ lk₁.locks = lk.locks) ∧
    (∀ lk id, (lk.heap id).name ≠ "" →
        ∃ lk₁, RRelease lk id = .ok lk₁ ∧
          (lk₁.heap id).writeLockMode = (lk.heap id).writeLockMode ∧
          (lk₁.heap id).writeLockCount = (lk.heap id).writeLockCount ∧
          (lk₁.heap id).name = (lk.heap id).name ∧
          (∀ j, j ≠ id → lk₁.heap j = lk.heap j)) ∧
    (LockAction.mapLockAcquire ∉ releaseTrace false ∧
     LockAction.mapDeleteName ∉ releaseTrace false ∧
     LockAction.mapLockAcquire ∉ rReleaseTrace false ∧
     LockAction.mapDeleteName ∉ rReleaseTrace false) := by
  refine ⟨?_, ?_, ?_, by decide⟩
  · intro lk id hne hz
    obtain ⟨lk₁, hR, hnm, _, _, _, hother, _, hlocks⟩ := Release_spec lk id hne
    exact ⟨lk₁, hR, by rw [hlocks, if_neg hz], hnm, hother⟩
  · intro lk id hne hz
    obtain ⟨lk₁, hR, _, _, _, _, _, _, hlocks⟩ := RRelease_spec lk id hne
    exact ⟨lk₁, hR, by rw [hlocks, if_neg hz]⟩
  · intro lk id hne
    obtain ⟨lk₁, hR, hnm, _, hwm, hwc, hother, _, _⟩ := RRelease_spec lk id hne
    exact ⟨lk₁, hR, hwm, hwc, hnm, hother⟩

/-- C10 witness: the frame conditions at `exLocker2`, whose entry holds
two references, so the decrement leaves the map untouched. -/
theorem C10_witness :
    ∃ lk₁, Release exLocker2 0 = .ok lk₁ ∧ lk₁.locks = exLocker2.locks ∧
      (lk₁.heap 0).name = (exLocker2.heap 0).name := by
  obtain ⟨lk₁, hR, hlocks, hnm, _⟩ :=
    C10_release_frame_conditions.1 exLocker2 0 (by decide) (by decide)
  exact ⟨lk₁, hR, hlocks, hnm⟩
